import Mathlib

/-!
Verification of the grid-partition and cell-extraction engine of the
image grid cutter application.  The definitions below are a shallow
embedding of the TypeScript source: pixel coordinates (JavaScript
numbers) are modelled as rationals, integer pixel counts as naturals,
and the React component state as explicit records that the event
handlers transform.
-/

/-- Data model of a movable grid divider, from the GridLine shape
used throughout the source: a position along the axis it divides and a
flag telling whether the line is horizontal. -/
structure GridLine where
  position : ℚ
  isHorizontal : Bool
deriving DecidableEq, Repr

/-- Derived cell rectangle emitted by the partition calculation
(cutImageWithGridLines) and by the client uniform fallback. -/
structure CellRect where
  x : ℚ
  y : ℚ
  width : ℚ
  height : ℚ
deriving DecidableEq, Repr

/-- Integer crop region handed to the sharp extract call in the server
route: left and top offsets plus width and height, in whole pixels. -/
structure ExtractRegion where
  left : ℕ
  top : ℕ
  width : ℕ
  height : ℕ
deriving DecidableEq, Repr

/-- Boundary clamping used by the drag branch of handleMouseMove:
Math.max(0, Math.min(p, bound)). -/
def clampPosition (p bound : ℚ) : ℚ :=
  max 0 (min p bound)

/-- Grid regeneration formula shared by the GridCanvas regeneration
effect and by handleResetGrid in the page component: horizontal lines
for i = 1 .. rows-1 at (i / rows) * height, then vertical lines for
i = 1 .. columns-1 at (i / columns) * width. -/
def regenerateGridLines (rows columns : ℕ) (width height : ℚ) : List GridLine :=
  (List.range' 1 (rows - 1)).map
      (fun i => { position := (i : ℚ) / (rows : ℚ) * height, isHorizontal := true })
    ++ (List.range' 1 (columns - 1)).map
      (fun i => { position := (i : ℚ) / (columns : ℚ) * width, isHorizontal := false })

/-- Drag update from the dragging branch of handleMouseMove: copy the
line list, replace the active line by the same line with its position
clamped to the image bound of its axis. -/
def updateLine (lines : List GridLine) (i : ℕ) (x y width height : ℚ) : List GridLine :=
  match lines.get? i with
  | none => lines
  | some line =>
      if line.isHorizontal then
        lines.set i { line with position := clampPosition y height }
      else
        lines.set i { line with position := clampPosition x width }

/-- Invariant of the grid model: every line position lies in [0, bound]
for the bound of its axis (height for horizontal lines, width for
vertical lines). -/
def linesInBounds (lines : List GridLine) (width height : ℚ) : Prop :=
  ∀ l ∈ lines, 0 ≤ l.position ∧ l.position ≤ (if l.isHorizontal then height else width)

/-- Internal state of the GridCanvas component.  Its props carry only
the image url, the row and column counts and a change callback; no
prop feeds grid lines in, so the component keeps its own line list. -/
structure CanvasState where
  imageWidth : ℚ
  imageHeight : ℚ
  gridLines : List GridLine
  activeLine : Option ℕ
  hoveredLine : Option ℕ
deriving DecidableEq, Repr

/-- Page level state of the Home component: the line list reported by
the canvas callback, the image size, the grid dimensions and whether
an image url is loaded. -/
structure PageState where
  imageUrlPresent : Bool
  rows : ℕ
  columns : ℕ
  gridLines : List GridLine
  imageWidth : ℚ
  imageHeight : ℚ
deriving DecidableEq, Repr

/-- Regeneration effect of GridCanvas: when the image size is known
(neither dimension zero), rebuild the internal line list from the
current rows and columns. -/
def gridRegenerationEffect (c : CanvasState) (rows columns : ℕ) : CanvasState :=
  if c.imageWidth = 0 ∨ c.imageHeight = 0 then c
  else { c with gridLines := regenerateGridLines rows columns c.imageWidth c.imageHeight }

/-- The handleResetGrid callback of the page component: bail out when
the stored image size is zero or no image url is present, otherwise
replace the page level line list with freshly regenerated lines. -/
def handleResetGrid (p : PageState) : PageState :=
  if p.imageWidth = 0 ∨ p.imageHeight = 0 ∨ p.imageUrlPresent = false then p
  else { p with gridLines := regenerateGridLines p.rows p.columns p.imageWidth p.imageHeight }

/-- Effect of the reset action on the whole application state: the
page component calls only its own setGridLines, and GridCanvas has no
prop through which the page line list could reach it, so the canvas
component state is left as it is. -/
def appResetGrid (p : PageState) (c : CanvasState) : PageState × CanvasState :=
  (handleResetGrid p, c)

/-- Every regenerated line position lies inside [0, bound] on its
axis: position i / rows * height stays in [0, height] and similarly
for vertical lines, whenever the bounds are non-negative. -/
theorem regenerateGridLines_inBounds (R C : ℕ) (W H : ℚ) (hW : 0 ≤ W) (hH : 0 ≤ H) :
    linesInBounds (regenerateGridLines R C W H) W H := by
  intro l hl
  unfold regenerateGridLines at hl
  rcases List.mem_append.mp hl with h | h
  · rcases List.mem_map.mp h with ⟨i, hi, rfl⟩
    rcases List.mem_range'.mp hi with ⟨m, hm, rfl⟩
    have hR2 : 0 < R := by omega
    have hRpos : (0 : ℚ) < (R : ℚ) := by exact_mod_cast hR2
    have hle : ((1 + 1 * m : ℕ) : ℚ) / (R : ℚ) ≤ 1 := by
      rw [div_le_one hRpos]
      have hnum : 1 + 1 * m ≤ R := by omega
      exact_mod_cast hnum
    have hmain : ((1 + 1 * m : ℕ) : ℚ) / (R : ℚ) * H ≤ H := by
      calc ((1 + 1 * m : ℕ) : ℚ) / (R : ℚ) * H ≤ 1 * H :=
          mul_le_mul_of_nonneg_right hle hH
        _ = H := one_mul H
    constructor
    · show (0 : ℚ) ≤ ((1 + 1 * m : ℕ) : ℚ) / (R : ℚ) * H
      positivity
    · simpa using hmain
  · rcases List.mem_map.mp h with ⟨i, hi, rfl⟩
    rcases List.mem_range'.mp hi with ⟨m, hm, rfl⟩
    have hC2 : 0 < C := by omega
    have hCpos : (0 : ℚ) < (C : ℚ) := by exact_mod_cast hC2
    have hle : ((1 + 1 * m : ℕ) : ℚ) / (C : ℚ) ≤ 1 := by
      rw [div_le_one hCpos]
      have hnum : 1 + 1 * m ≤ C := by omega
      exact_mod_cast hnum
    have hmain : ((1 + 1 * m : ℕ) : ℚ) / (C : ℚ) * W ≤ W := by
      calc ((1 + 1 * m : ℕ) : ℚ) / (C : ℚ) * W ≤ 1 * W :=
          mul_le_mul_of_nonneg_right hle hW
        _ = W := one_mul W
    constructor
    · show (0 : ℚ) ≤ ((1 + 1 * m : ℕ) : ℚ) / (C : ℚ) * W
      positivity
    · simpa using hmain

/-- Claim C4: a drag update clamps the dragged line into [0, bound]
for the bound of its axis whatever the pointer coordinates are,
clamping is idempotent at the boundary, and both the drag update and
grid regeneration preserve the invariant that every line position lies
in [0, bound] on its axis. -/
theorem drag_clamp_invariant (W H : ℚ) (hW : 0 ≤ W) (hH : 0 ≤ H) :
    (∀ p bound, 0 ≤ bound → 0 ≤ clampPosition p bound ∧ clampPosition p bound ≤ bound) ∧
    (∀ p bound, clampPosition (clampPosition p bound) bound = clampPosition p bound) ∧
    (∀ lines i x y, linesInBounds lines W H → linesInBounds (updateLine lines i x y W H) W H) ∧
    (∀ R C, linesInBounds (regenerateGridLines R C W H) W H) := by
  refine ⟨?_, ?_, ?_, ?_⟩
  · intro p bound hb
    constructor
    · exact le_max_left 0 (min p bound)
    · simp only [clampPosition, max_le_iff]
      exact ⟨hb, min_le_right p bound⟩
  · intro p bound
    simp only [clampPosition, min_def, max_def]
    split_ifs <;> rfl
  · intro lines i x y hinv
    unfold updateLine
    cases hget : lines.get? i with
    | none => exact hinv
    | some line =>
        cases hhor : line.isHorizontal with
        | true =>
            simp only [hhor, if_true]
            intro l hl
            rcases List.mem_or_eq_of_mem_set hl with h | h
            · exact hinv l h
            · subst h
              refine ⟨le_max_left _ _, ?_⟩
              simp only [hhor, if_true, clampPosition, max_le_iff]
              exact ⟨hH, min_le_right _ _⟩
        | false =>
            simp only [hhor, Bool.false_eq_true, if_false]
            intro l hl
            rcases List.mem_or_eq_of_mem_set hl with h | h
            · exact hinv l h
            · subst h
              refine ⟨le_max_left _ _, ?_⟩
              simp only [hhor, Bool.false_eq_true, if_false, clampPosition, max_le_iff]
              exact ⟨hW, min_le_right _ _⟩
  · intro R C
    exact regenerateGridLines_inBounds R C W H hW hH

/-- Witness for C4 at a concrete 300 by 300 image: clamping the far
drag coordinate 500 for a horizontal line yields 300, inside bounds. -/
theorem drag_clamp_invariant_witness :
    (0 ≤ clampPosition 500 300 ∧ clampPosition 500 300 ≤ 300) ∧
    clampPosition (clampPosition 500 300) 300 = clampPosition 500 300 := by
  have h := drag_clamp_invariant 300 300 (by norm_num) (by norm_num)
  exact ⟨h.1 500 300 (by norm_num), h.2.1 500 300⟩

/-- Claim C6: grid regeneration (the GridCanvas effect and the page
reset both delegate to the same formula) yields exactly
(R - 1) + (C - 1) lines, all within [0, bound] on their axis, with
horizontal line i (1-indexed, i below R) stored at list slot i - 1
with position i / R * H, and vertical line j stored after all
horizontal lines with position j / C * W, deterministically and
without reading any prior line positions. -/
theorem regenerate_spec (R C : ℕ) (W H : ℚ) (hR : 2 ≤ R) (hC : 2 ≤ C)
    (hW : 0 ≤ W) (hH : 0 ≤ H) :
    (regenerateGridLines R C W H).length = (R - 1) + (C - 1) ∧
    linesInBounds (regenerateGridLines R C W H) W H ∧
    (∀ i, 1 ≤ i → i < R →
      (regenerateGridLines R C W H).get? (i - 1) =
        some { position := (i : ℚ) / (R : ℚ) * H, isHorizontal := true }) ∧
    (∀ j, 1 ≤ j → j < C →
      (regenerateGridLines R C W H).get? ((R - 1) + (j - 1)) =
        some { position := (j : ℚ) / (C : ℚ) * W, isHorizontal := false }) ∧
    (∀ (c : CanvasState), c.imageWidth = W → c.imageHeight = H → W ≠ 0 → H ≠ 0 →
      (gridRegenerationEffect c R C).gridLines = regenerateGridLines R C W H) ∧
    (∀ (p : PageState), p.imageWidth = W → p.imageHeight = H → p.rows = R →
      p.columns = C → p.imageUrlPresent = true → W ≠ 0 → H ≠ 0 →
      (handleResetGrid p).gridLines = regenerateGridLines R C W H) := by
  refine ⟨?_, regenerateGridLines_inBounds R C W H hW hH, ?_, ?_, ?_, ?_⟩
  · simp [regenerateGridLines]
  · intro i h1 h2
    unfold regenerateGridLines
    rw [List.get?_eq_getElem?, List.getElem?_append]
    rw [if_pos (by simp; omega)]
    rw [List.getElem?_map, List.getElem?_range' 1 1 (by omega)]
    have hidx : 1 + 1 * (i - 1) = i := by omega
    rw [hidx]
    rfl
  · intro j h1 h2
    unfold regenerateGridLines
    rw [List.get?_eq_getElem?, List.getElem?_append]
    rw [if_neg (by simp)]
    simp only [List.length_map, List.length_range']
    have hsub : (R - 1) + (j - 1) - (R - 1) = j - 1 := by omega
    rw [hsub]
    rw [List.getElem?_map, List.getElem?_range' 1 1 (by omega)]
    have hidx : 1 + 1 * (j - 1) = j := by omega
    rw [hidx]
    rfl
  · intro c hw hh hW0 hH0
    simp [gridRegenerationEffect, hw, hh, hW0, hH0]
  · intro p hw hh hr hc hurl hW0 hH0
    simp [handleResetGrid, hw, hh, hr, hc, hurl, hW0, hH0]

/-- Witness for C6 at a 3 by 3 grid on a 300 by 300 image: four lines,
with the first horizontal line stored at slot 0 and the first vertical
line at slot 2. -/
theorem regenerate_spec_witness :
    (regenerateGridLines 3 3 300 300).length = 4 ∧
    (regenerateGridLines 3 3 300 300).get? 0 =
      some { position := ((1 : ℕ) : ℚ) / ((3 : ℕ) : ℚ) * 300, isHorizontal := true } ∧
    (regenerateGridLines 3 3 300 300).get? 2 =
      some { position := ((1 : ℕ) : ℚ) / ((3 : ℕ) : ℚ) * 300, isHorizontal := false } := by
  have h := regenerate_spec 3 3 300 300 (by norm_num) (by norm_num) (by norm_num) (by norm_num)
  exact ⟨h.1, h.2.2.1 1 (by norm_num) (by norm_num), h.2.2.2.1 1 (by norm_num) (by norm_num)⟩

/-- Claim C8: a drag update of the line at index i changes only slot i
of the line list, replacing its position by the clamped pointer
coordinate of its axis and keeping its isHorizontal flag; every other
slot is untouched, the length is unchanged and the storage order is
never re-sorted. -/
theorem updateLine_frame_effect (lines : List GridLine) (i : ℕ) (x y W H : ℚ)
    (hi : i < lines.length) :
    (updateLine lines i x y W H).length = lines.length ∧
    (∀ j, j ≠ i → (updateLine lines i x y W H).get? j = lines.get? j) ∧
    (∃ line, lines.get? i = some line ∧
      (updateLine lines i x y W H).get? i =
        some ⟨if line.isHorizontal then clampPosition y H else clampPosition x W,
          line.isHorizontal⟩) := by
  have hline : lines.get? i = some (lines.get ⟨i, hi⟩) := List.get?_eq_get hi
  refine ⟨?_, ?_, lines.get ⟨i, hi⟩, hline, ?_⟩
  · simp only [updateLine, hline]
    cases (lines.get ⟨i, hi⟩).isHorizontal <;> simp
  · intro j hj
    simp only [updateLine, hline]
    cases (lines.get ⟨i, hi⟩).isHorizontal <;>
      simp [List.get?_eq_getElem?, List.getElem?_set_ne (fun h => hj h.symm)]
  · simp only [updateLine, hline]
    cases hhor : (lines.get ⟨i, hi⟩).isHorizontal <;>
      simp [hhor, List.get?_eq_getElem?, List.getElem?_set_self hi]

/-- Witness for C8: dragging the first of two lines far below a 10 by
10 image leaves the second line untouched and clamps the first to the
bottom edge. -/
theorem updateLine_frame_effect_witness :
    (updateLine [⟨5, true⟩, ⟨7, false⟩] 0 2 100 10 10).length =
      ([⟨5, true⟩, ⟨7, false⟩] : List GridLine).length ∧
    (updateLine [⟨5, true⟩, ⟨7, false⟩] 0 2 100 10 10).get? 1 =
      ([⟨5, true⟩, ⟨7, false⟩] : List GridLine).get? 1 ∧
    (∃ line, ([⟨5, true⟩, ⟨7, false⟩] : List GridLine).get? 0 = some line ∧
      (updateLine [⟨5, true⟩, ⟨7, false⟩] 0 2 100 10 10).get? 0 =
        some ⟨if line.isHorizontal then clampPosition 100 10 else clampPosition 2 10,
          line.isHorizontal⟩) := by
  have h := updateLine_frame_effect [⟨5, true⟩, ⟨7, false⟩] 0 2 100 10 10 (by norm_num)
  exact ⟨h.1, h.2.1 1 (by norm_num), h.2.2⟩

/-- Sorted horizontal boundary values of cutImageWithGridLines: the
positions of the horizontal lines sorted ascending, with 0 prepended
and the image height appended. -/
def allHorizontalPositions (gridLines : List GridLine) (imageHeight : ℚ) : List ℚ :=
  0 :: ((gridLines.filter (fun l => l.isHorizontal)).map
      (fun l => l.position)).mergeSort (fun a b => decide (a ≤ b)) ++ [imageHeight]

/-- Sorted vertical boundary values of cutImageWithGridLines: the
positions of the vertical lines sorted ascending, with 0 prepended and
the image width appended. -/
def allVerticalPositions (gridLines : List GridLine) (imageWidth : ℚ) : List ℚ :=
  0 :: ((gridLines.filter (fun l => !l.isHorizontal)).map
      (fun l => l.position)).mergeSort (fun a b => decide (a ≤ b)) ++ [imageWidth]

/-- Consecutive boundary pairs, modelling the source loops that walk
index i from 0 to length - 2 and read positions i and i + 1. -/
def intervals (boundaries : List ℚ) : List (ℚ × ℚ) :=
  boundaries.zip boundaries.tail

/-- The partition calculation of cutImageWithGridLines: for every
consecutive pair of horizontal boundaries (outer loop, top to bottom)
and every consecutive pair of vertical boundaries (inner loop, left to
right), emit the cell rectangle with those offsets and extents. -/
def cutImageWithGridLines (gridLines : List GridLine) (imageWidth imageHeight : ℚ) :
    List CellRect :=
  (intervals (allHorizontalPositions gridLines imageHeight)).flatMap (fun hp =>
    (intervals (allVerticalPositions gridLines imageWidth)).map (fun vp =>
      { x := vp.1, y := hp.1, width := vp.2 - vp.1, height := hp.2 - hp.1 }))

/-- Unfolding lemma: the interval list of a two-or-more element
boundary list starts with the pair of its first two entries. -/
theorem intervals_cons_cons (a b : ℚ) (t : List ℚ) :
    intervals (a :: b :: t) = (a, b) :: intervals (b :: t) := rfl

/-- A boundary list of n entries yields n - 1 consecutive pairs. -/
theorem intervals_length (l : List ℚ) : (intervals l).length = l.length - 1 := by
  induction l with
  | nil => rfl
  | cons a t ih =>
      cases t with
      | nil => rfl
      | cons b t2 =>
          rw [intervals_cons_cons]
          simp only [List.length_cons] at ih ⊢
          omega

/-- Entry i of the interval list pairs boundary entries i and i + 1. -/
theorem intervals_get?_of (l : List ℚ) (i : ℕ) (a b : ℚ)
    (ha : l.get? i = some a) (hb : l.get? (i + 1) = some b) :
    (intervals l).get? i = some (a, b) := by
  induction l generalizing i with
  | nil => simp at ha
  | cons c t ih =>
      cases t with
      | nil =>
          cases i with
          | zero => simp at hb
          | succ i' => simp at ha
      | cons d t2 =>
          cases i with
          | zero =>
              have hac : a = c := by simpa using ha.symm
              have hbd : b = d := by simpa using hb.symm
              subst hac
              subst hbd
              rw [intervals_cons_cons]
              rfl
          | succ i' =>
              rw [intervals_cons_cons]
              have ha' : (d :: t2).get? i' = some a := by simpa using ha
              have hb' : (d :: t2).get? (i' + 1) = some b := by simpa using hb
              simpa using ih i' ha' hb'

/-- Conversely, an interval-list entry determines the two boundary
entries it was built from. -/
theorem intervals_get?_inv (l : List ℚ) (i : ℕ) (p : ℚ × ℚ)
    (h : (intervals l).get? i = some p) :
    l.get? i = some p.1 ∧ l.get? (i + 1) = some p.2 := by
  induction l generalizing i with
  | nil => simp [intervals] at h
  | cons c t ih =>
      cases t with
      | nil => simp [intervals] at h
      | cons d t2 =>
          rw [intervals_cons_cons] at h
          cases i with
          | zero =>
              have hp : p = (c, d) := by simpa using h.symm
              subst hp
              exact ⟨rfl, rfl⟩
          | succ i' =>
              have h' : (intervals (d :: t2)).get? i' = some p := by simpa using h
              have := ih i' h'
              exact ⟨by simpa using this.1, by simpa using this.2⟩

/-- In a sorted boundary list every consecutive pair is ordered, so
every emitted cell has non-negative extent. -/
theorem intervals_mono (l : List ℚ) (hs : List.Sorted (· ≤ ·) l) :
    ∀ p ∈ intervals l, p.1 ≤ p.2 := by
  induction l with
  | nil =>
      intro p hp
      simp [intervals] at hp
  | cons a t ih =>
      cases t with
      | nil =>
          intro p hp
          simp [intervals] at hp
      | cons b t2 =>
          intro p hp
          rw [intervals_cons_cons] at hp
          rcases List.mem_cons.mp hp with h | h
          · subst h
            exact (List.sorted_cons.mp hs).1 b (by simp)
          · exact ih (List.sorted_cons.mp hs).2 p h

/-- Length of the nested row-major emission: the product of the outer
and inner loop lengths. -/
theorem flatMap_map_length {α β γ : Type} (l1 : List α) (l2 : List β) (f : α → β → γ) :
    (l1.flatMap (fun a => l2.map (f a))).length = l1.length * l2.length := by
  induction l1 with
  | nil => simp
  | cons a t ih =>
      simp only [List.flatMap_cons, List.length_append, List.length_map, ih, List.length_cons]
      ring

/-- Row-major indexing of the nested emission: flat slot
i * |inner| + j holds the element built from outer slot i and inner
slot j. -/
theorem flatMap_map_get?_some {α β γ : Type} (l1 : List α) (l2 : List β) (f : α → β → γ)
    (i j : ℕ) (a : α) (b : β) (ha : l1.get? i = some a) (hb : l2.get? j = some b) :
    (l1.flatMap (fun p => l2.map (f p))).get? (i * l2.length + j) = some (f a b) := by
  have hj : j < l2.length := (List.get?_eq_some.mp hb).1
  induction l1 generalizing i with
  | nil => simp at ha
  | cons hd t ih =>
      cases i with
      | zero =>
          have hac : a = hd := by simpa using ha.symm
          subst hac
          have hidx : 0 * l2.length + j = j := by omega
          rw [hidx, List.flatMap_cons]
          rw [List.get?_eq_getElem?, List.getElem?_append]
          rw [if_pos (by simpa using hj)]
          rw [List.getElem?_map]
          rw [← List.get?_eq_getElem?, hb]
          rfl
      | succ i' =>
          have ha' : t.get? i' = some a := by simpa using ha
          rw [List.flatMap_cons]
          rw [List.get?_eq_getElem?, List.getElem?_append]
          rw [if_neg (by simp [Nat.succ_mul]; omega)]
          have harith : (i' + 1) * l2.length + j - (l2.map (f hd)).length =
              i' * l2.length + j := by
            simp [Nat.succ_mul]
            omega
          rw [harith, ← List.get?_eq_getElem?]
          exact ih i' ha'

/-- Decomposition of a flat row-major slot into its outer and inner
loop indices by Euclidean division. -/
theorem flatMap_map_get?_decomp {α β γ : Type} (l1 : List α) (l2 : List β) (f : α → β → γ)
    (k : ℕ) (c : γ) (h2 : 0 < l2.length)
    (hk : (l1.flatMap (fun p => l2.map (f p))).get? k = some c) :
    ∃ a b, l1.get? (k / l2.length) = some a ∧ l2.get? (k % l2.length) = some b ∧
      c = f a b := by
  have hklt : k < (l1.flatMap (fun p => l2.map (f p))).length :=
    (List.get?_eq_some.mp hk).1
  rw [flatMap_map_length] at hklt
  have hi : k / l2.length < l1.length := by
    rw [Nat.div_lt_iff_lt_mul h2]
    exact hklt
  have hj : k % l2.length < l2.length := Nat.mod_lt _ h2
  obtain ⟨hi2, ha⟩ := List.getElem?_eq_some.mp (by
    rw [← List.get?_eq_getElem?]
    exact List.get?_eq_get hi)
  refine ⟨l1.get ⟨k / l2.length, hi⟩, l2.get ⟨k % l2.length, hj⟩,
    List.get?_eq_get hi, List.get?_eq_get hj, ?_⟩
  have hfull := flatMap_map_get?_some l1 l2 f (k / l2.length) (k % l2.length)
    (l1.get ⟨k / l2.length, hi⟩) (l2.get ⟨k % l2.length, hj⟩)
    (List.get?_eq_get hi) (List.get?_eq_get hj)
  have hsplit : k / l2.length * l2.length + k % l2.length = k := by
    have hdm := Nat.div_add_mod k l2.length
    rw [Nat.mul_comm] at hdm
    omega
  rw [hsplit] at hfull
  rw [hfull] at hk
  exact (Option.some.inj hk).symm

/-- The assembled boundary list (0, sorted interior positions, bound)
is sorted whenever every interior position lies in [0, bound]. -/
theorem boundaries_sorted (xs : List ℚ) (bound : ℚ)
    (hmem : ∀ x ∈ xs, 0 ≤ x ∧ x ≤ bound) (hb : 0 ≤ bound) :
    List.Sorted (· ≤ ·) (0 :: xs.mergeSort (fun a b => decide (a ≤ b)) ++ [bound]) := by
  have hsorted : List.Sorted (· ≤ ·) (xs.mergeSort (fun a b => decide (a ≤ b))) :=
    List.sorted_mergeSort' xs
  have hmem2 : ∀ x ∈ xs.mergeSort (fun a b => decide (a ≤ b)), 0 ≤ x ∧ x ≤ bound := by
    intro x hx
    exact hmem x (List.mem_mergeSort.mp hx)
  rw [List.cons_append, List.sorted_cons]
  constructor
  · intro z hz
    rcases List.mem_append.mp hz with h | h
    · exact (hmem2 z h).1
    · have hzb : z = bound := by simpa using h
      subst hzb
      exact hb
  · refine List.pairwise_append.mpr ⟨hsorted, List.pairwise_singleton _ _, ?_⟩
    intro u hu z hz
    have hzb : z = bound := by simpa using hz
    subst hzb
    exact (hmem2 u hu).2

/-- The first entry of the assembled boundary list is 0. -/
theorem boundary_get?_zero (s : List ℚ) (b : ℚ) : (0 :: s ++ [b]).get? 0 = some 0 := rfl

/-- The last entry of the assembled boundary list is the bound. -/
theorem boundary_get?_last (s : List ℚ) (b : ℚ) :
    (0 :: s ++ [b]).get? ((0 :: s ++ [b]).length - 1) = some b := by
  have hlen : (0 :: s ++ [b]).length - 1 = s.length + 1 := by simp
  rw [hlen]
  show (s ++ [b]).get? s.length = some b
  rw [List.get?_eq_getElem?, List.getElem?_append]
  rw [if_neg (lt_irrefl s.length)]
  simp

/-- In a sorted boundary list whose first entry is at most q and whose
last entry exceeds q, exactly one consecutive pair brackets q from
below (inclusive) and above (exclusive). -/
theorem exists_unique_interval (l : List ℚ) (q : ℚ) (hs : List.Sorted (· ≤ ·) l) :
    ∀ a b, l.get? 0 = some a → a ≤ q → l.get? (l.length - 1) = some b → q < b →
      ∃! i : ℕ, ∃ u v, l.get? i = some u ∧ l.get? (i + 1) = some v ∧ u ≤ q ∧ q < v := by
  induction l with
  | nil =>
      intro a b ha
      simp at ha
  | cons c t ih =>
      intro a b ha haq hb hqb
      have hac : a = c := by simpa using ha.symm
      subst hac
      cases t with
      | nil =>
          have hbc : b = a := by simpa using hb.symm
          subst hbc
          exact absurd hqb (not_lt.mpr haq)
      | cons d t2 =>
          have hsd : List.Sorted (· ≤ ·) (d :: t2) := (List.sorted_cons.mp hs).2
          have hhead : ∀ u ∈ d :: t2, d ≤ u := by
            intro u hu
            rcases List.mem_cons.mp hu with h | h
            · exact le_of_eq h.symm
            · exact (List.sorted_cons.mp hsd).1 u h
          by_cases hq : q < d
          · refine ⟨0, ⟨a, d, rfl, rfl, haq, hq⟩, ?_⟩
            rintro i' ⟨u, v, hu, hv, huq, hqv⟩
            cases i' with
            | zero => rfl
            | succ j =>
                exfalso
                have hu' : (d :: t2).get? j = some u := by simpa using hu
                have humem : u ∈ d :: t2 := List.get?_mem hu'
                have hdu : d ≤ u := hhead u humem
                exact absurd hq (not_lt.mpr (le_trans hdu huq))
          · push_neg at hq
            have hb' : (d :: t2).get? ((d :: t2).length - 1) = some b := by
              have hlen : (a :: d :: t2).length - 1 = ((d :: t2).length - 1) + 1 := by
                simp
              rw [hlen] at hb
              simpa using hb
            obtain ⟨i₀, ⟨u, v, hu, hv, h1, h2⟩, huniq⟩ :=
              ih hsd d b rfl hq hb' hqb
            refine ⟨i₀ + 1, ⟨u, v, by simpa using hu, by simpa using hv, h1, h2⟩, ?_⟩
            rintro i' ⟨u', v', hu', hv', h1', h2'⟩
            cases i' with
            | zero =>
                exfalso
                have hv0 : v' = d := by simpa using hv'.symm
                subst hv0
                exact absurd h2' (not_lt.mpr hq)
            | succ j =>
                have hj := huniq j ⟨u', v', by simpa using hu', by simpa using hv', h1', h2'⟩
                omega

/-- Claim C3: for every GridLine list (any order, duplicates allowed)
and bounds, cutImageWithGridLines emits exactly (h + 1) * (v + 1)
cell rectangles in row-major order (outer loop over sorted horizontal
boundaries, inner loop over sorted vertical boundaries), each with
non-negative extent when every position is in range, and with no
duplicate positions every interior point of the image lies in exactly
one half-open cell; zero interior lines on an axis yields one interval
spanning the full bound (the boundary list is then just 0 and the
bound). -/
theorem cut_with_grid_lines_spec (gridLines : List GridLine) (W H : ℚ)
    (hW : 0 ≤ W) (hH : 0 ≤ H)
    (hbounds : ∀ l ∈ gridLines, 0 ≤ l.position ∧
      l.position ≤ (if l.isHorizontal then H else W)) :
    (cutImageWithGridLines gridLines W H).length =
      ((gridLines.filter (fun l => l.isHorizontal)).length + 1) *
        ((gridLines.filter (fun l => !l.isHorizontal)).length + 1) ∧
    (∀ i j a1 a2 b1 b2,
      (allHorizontalPositions gridLines H).get? i = some a1 →
      (allHorizontalPositions gridLines H).get? (i + 1) = some a2 →
      (allVerticalPositions gridLines W).get? j = some b1 →
      (allVerticalPositions gridLines W).get? (j + 1) = some b2 →
      (cutImageWithGridLines gridLines W H).get?
          (i * ((gridLines.filter (fun l => !l.isHorizontal)).length + 1) + j) =
        some { x := b1, y := a1, width := b2 - b1, height := a2 - a1 }) ∧
    (∀ c ∈ cutImageWithGridLines gridLines W H, 0 ≤ c.width ∧ 0 ≤ c.height) ∧
    (((gridLines.filter (fun l => l.isHorizontal)).map (fun l => l.position)).Nodup →
      ((gridLines.filter (fun l => !l.isHorizontal)).map (fun l => l.position)).Nodup →
      ∀ px py, 0 ≤ px → px < W → 0 ≤ py → py < H →
        ∃! k : ℕ, ∃ c, (cutImageWithGridLines gridLines W H).get? k = some c ∧
          c.x ≤ px ∧ px < c.x + c.width ∧ c.y ≤ py ∧ py < c.y + c.height) := by
  have hmemH : ∀ x ∈ (gridLines.filter (fun l => l.isHorizontal)).map
      (fun l => l.position), 0 ≤ x ∧ x ≤ H := by
    intro x hx
    rcases List.mem_map.mp hx with ⟨l, hl, rfl⟩
    rcases List.mem_filter.mp hl with ⟨hmem, hhor⟩
    have := hbounds l hmem
    rcases this with ⟨h0, h1⟩
    refine ⟨h0, ?_⟩
    rw [if_pos hhor] at h1
    exact h1
  have hmemV : ∀ x ∈ (gridLines.filter (fun l => !l.isHorizontal)).map
      (fun l => l.position), 0 ≤ x ∧ x ≤ W := by
    intro x hx
    rcases List.mem_map.mp hx with ⟨l, hl, rfl⟩
    rcases List.mem_filter.mp hl with ⟨hmem, hhor⟩
    have := hbounds l hmem
    rcases this with ⟨h0, h1⟩
    refine ⟨h0, ?_⟩
    have hfalse : l.isHorizontal = false := by
      cases hh : l.isHorizontal
      · rfl
      · rw [hh] at hhor
        simp at hhor
    rw [hfalse] at h1
    simpa using h1
  have hsortH : List.Sorted (· ≤ ·) (allHorizontalPositions gridLines H) :=
    boundaries_sorted _ H hmemH hH
  have hsortV : List.Sorted (· ≤ ·) (allVerticalPositions gridLines W) :=
    boundaries_sorted _ W hmemV hW
  have hlenH : (allHorizontalPositions gridLines H).length =
      (gridLines.filter (fun l => l.isHorizontal)).length + 2 := by
    simp [allHorizontalPositions, List.length_mergeSort]
  have hlenV : (allVerticalPositions gridLines W).length =
      (gridLines.filter (fun l => !l.isHorizontal)).length + 2 := by
    simp [allVerticalPositions, List.length_mergeSort]
  have hIntLenH : (intervals (allHorizontalPositions gridLines H)).length =
      (gridLines.filter (fun l => l.isHorizontal)).length + 1 := by
    rw [intervals_length, hlenH]
    omega
  have hIntLenV : (intervals (allVerticalPositions gridLines W)).length =
      (gridLines.filter (fun l => !l.isHorizontal)).length + 1 := by
    rw [intervals_length, hlenV]
    omega
  refine ⟨?_, ?_, ?_, ?_⟩
  · unfold cutImageWithGridLines
    rw [flatMap_map_length, hIntLenH, hIntLenV]
  · intro i j a1 a2 b1 b2 h1 h2 h3 h4
    have hH1 : (intervals (allHorizontalPositions gridLines H)).get? i = some (a1, a2) :=
      intervals_get?_of _ i a1 a2 h1 h2
    have hV1 : (intervals (allVerticalPositions gridLines W)).get? j = some (b1, b2) :=
      intervals_get?_of _ j b1 b2 h3 h4
    have hmain := flatMap_map_get?_some
      (intervals (allHorizontalPositions gridLines H))
      (intervals (allVerticalPositions gridLines W))
      (fun hp vp =>
        ({ x := vp.1, y := hp.1, width := vp.2 - vp.1, height := hp.2 - hp.1 } : CellRect))
      i j (a1, a2) (b1, b2) hH1 hV1
    rw [hIntLenV] at hmain
    exact hmain
  · intro c hc
    unfold cutImageWithGridLines at hc
    rcases List.mem_flatMap.mp hc with ⟨hp, hhp, hc2⟩
    rcases List.mem_map.mp hc2 with ⟨vp, hvp, rfl⟩
    constructor
    · have hmono := intervals_mono _ hsortV vp hvp
      show (0 : ℚ) ≤ vp.2 - vp.1
      linarith
    · have hmono := intervals_mono _ hsortH hp hhp
      show (0 : ℚ) ≤ hp.2 - hp.1
      linarith
  · intro hndH hndV px py hpx0 hpxW hpy0 hpyH
    have hzH : (allHorizontalPositions gridLines H).get? 0 = some 0 :=
      boundary_get?_zero _ _
    have hzV : (allVerticalPositions gridLines W).get? 0 = some 0 :=
      boundary_get?_zero _ _
    have hlH : (allHorizontalPositions gridLines H).get?
        ((allHorizontalPositions gridLines H).length - 1) = some H :=
      boundary_get?_last _ _
    have hlV : (allVerticalPositions gridLines W).get?
        ((allVerticalPositions gridLines W).length - 1) = some W :=
      boundary_get?_last _ _
    obtain ⟨i, ⟨a1, a2, hi1, hi2, hia, hib⟩, hiu⟩ :=
      exists_unique_interval _ py hsortH 0 H hzH hpy0 hlH hpyH
    obtain ⟨j, ⟨b1, b2, hj1, hj2, hja, hjb⟩, hju⟩ :=
      exists_unique_interval _ px hsortV 0 W hzV hpx0 hlV hpxW
    have hcell := flatMap_map_get?_some
      (intervals (allHorizontalPositions gridLines H))
      (intervals (allVerticalPositions gridLines W))
      (fun hp vp =>
        ({ x := vp.1, y := hp.1, width := vp.2 - vp.1, height := hp.2 - hp.1 } : CellRect))
      i j (a1, a2) (b1, b2)
      (intervals_get?_of _ i a1 a2 hi1 hi2)
      (intervals_get?_of _ j b1 b2 hj1 hj2)
    rw [hIntLenV] at hcell
    refine ⟨i * ((gridLines.filter (fun l => !l.isHorizontal)).length + 1) + j,
      ⟨{ x := b1, y := a1, width := b2 - b1, height := a2 - a1 }, hcell, hja, ?_, hia, ?_⟩, ?_⟩
    · have hsum : b1 + (b2 - b1) = b2 := by ring
      show px < b1 + (b2 - b1)
      rw [hsum]
      exact hjb
    · have hsum : a1 + (a2 - a1) = a2 := by ring
      show py < a1 + (a2 - a1)
      rw [hsum]
      exact hib
    · rintro k' ⟨c', hk', hcx1, hcx2, hcy1, hcy2⟩
      have hpos : 0 < (intervals (allVerticalPositions gridLines W)).length := by
        rw [hIntLenV]
        omega
      unfold cutImageWithGridLines at hk'
      obtain ⟨hp, vp, hgH, hgV, rfl⟩ := flatMap_map_get?_decomp _ _ _ k' c' hpos hk'
      obtain ⟨hpa, hpb⟩ := intervals_get?_inv _ _ _ hgH
      obtain ⟨hva, hvb⟩ := intervals_get?_inv _ _ _ hgV
      have hy1 : hp.1 ≤ py := by simpa using hcy1
      have hy2 : py < hp.2 := by
        have hsum : hp.1 + (hp.2 - hp.1) = hp.2 := by ring
        have h := hcy2
        simp only [CellRect.y, CellRect.height] at h
        rw [hsum] at h
        exact h
      have hx1 : vp.1 ≤ px := by simpa using hcx1
      have hx2 : px < vp.2 := by
        have hsum : vp.1 + (vp.2 - vp.1) = vp.2 := by ring
        have h := hcx2
        simp only [CellRect.x, CellRect.width] at h
        rw [hsum] at h
        exact h
      have hieq := hiu (k' / (intervals (allVerticalPositions gridLines W)).length)
        ⟨hp.1, hp.2, hpa, hpb, hy1, hy2⟩
      have hjeq := hju (k' % (intervals (allVerticalPositions gridLines W)).length)
        ⟨vp.1, vp.2, hva, hvb, hx1, hx2⟩
      have hdm := Nat.div_add_mod k' (intervals (allVerticalPositions gridLines W)).length
      rw [Nat.mul_comm] at hdm
      rw [hIntLenV] at hieq hjeq hdm
      rw [hieq, hjeq] at hdm
      exact hdm.symm

/-- Witness for C3 on a concrete grid: one horizontal line at 1 and
one vertical line at 2 on a 3 by 3 image give four cells, and the
point (2, 2) lies in exactly one of them. -/
theorem cut_with_grid_lines_spec_witness :
    (cutImageWithGridLines [⟨1, true⟩, ⟨2, false⟩] 3 3).length =
      ((([⟨1, true⟩, ⟨2, false⟩] : List GridLine).filter
          (fun l => l.isHorizontal)).length + 1) *
        ((([⟨1, true⟩, ⟨2, false⟩] : List GridLine).filter
          (fun l => !l.isHorizontal)).length + 1) ∧
    (∃! k : ℕ, ∃ c, (cutImageWithGridLines [⟨1, true⟩, ⟨2, false⟩] 3 3).get? k = some c ∧
      c.x ≤ 2 ∧ 2 < c.x + c.width ∧ c.y ≤ 2 ∧ 2 < c.y + c.height) := by
  have h := cut_with_grid_lines_spec [⟨1, true⟩, ⟨2, false⟩] 3 3
    (by norm_num) (by norm_num) (by decide)
  exact ⟨h.1, h.2.2.2 (by decide) (by decide) 2 2
    (by norm_num) (by norm_num) (by norm_num) (by norm_num)⟩

/-- Claim C5: the explicit reset action replaces only the page level
line list that the extraction path reads; the GridCanvas component
receives no grid-line prop, so its internal line list is unchanged by
reset, and afterwards the lines on screen can differ from the lines
used to cut the image. -/
theorem reset_grid_frame_effect :
    (∀ (p : PageState) (c : CanvasState), (appResetGrid p c).2 = c) ∧
    (appResetGrid ⟨true, 2, 2, [⟨70, true⟩, ⟨70, false⟩], 100, 100⟩
        ⟨100, 100, [⟨70, true⟩, ⟨70, false⟩], none, none⟩).1.gridLines ≠
      (appResetGrid ⟨true, 2, 2, [⟨70, true⟩, ⟨70, false⟩], 100, 100⟩
        ⟨100, 100, [⟨70, true⟩, ⟨70, false⟩], none, none⟩).2.gridLines := by
  constructor
  · intro p c
    rfl
  · simp [appResetGrid, handleResetGrid, regenerateGridLines, List.range']
    norm_num

/-- Client uniform fallback cutImageIntoGrid: cell extents are the
exact (possibly fractional) quotients width / columns and
height / rows, and the source rectangle drawn for cell (row, col)
starts at (col * cellWidth, row * cellHeight), emitted row-major. -/
def cutImageIntoGrid (imageWidth imageHeight : ℚ) (rows columns : ℕ) : List CellRect :=
  (List.range rows).flatMap (fun (row : ℕ) =>
    (List.range columns).map (fun (col : ℕ) =>
      { x := (col : ℚ) * (imageWidth / (columns : ℚ)),
        y := (row : ℚ) * (imageHeight / (rows : ℚ)),
        width := imageWidth / (columns : ℚ),
        height := imageHeight / (rows : ℚ) }))

/-- Server uniform fallback of the /api/cut-image route: integer cell
extents Math.floor(width / columns) and Math.floor(height / rows), and
cell (row, col) extracted at (col * cellWidth, row * cellHeight),
emitted row-major. -/
def serverCells (imageWidth imageHeight rows columns : ℕ) : List ExtractRegion :=
  (List.range rows).flatMap (fun row =>
    (List.range columns).map (fun col =>
      { left := col * (imageWidth / columns),
        top := row * (imageHeight / rows),
        width := imageWidth / columns,
        height := imageHeight / rows }))

/-- One archive entry: a file name and its byte content. -/
structure ZipEntry where
  name : String
  content : List ℕ
deriving DecidableEq, Repr

/-- Chunking loop of b64toBlob: slice the decoded characters into
sliceSize pieces (the source default is 512).  A zero slice size would
not terminate in the source and is never used; it is mapped to the
empty chunk list. -/
def blobSlices (chars : List ℕ) (sliceSize : ℕ) : List (List ℕ) :=
  match chars, sliceSize with
  | [], _ => []
  | _ :: _, 0 => []
  | c :: cs, n + 1 => (c :: cs).take (n + 1) :: blobSlices ((c :: cs).drop (n + 1)) (n + 1)
termination_by chars.length
decreasing_by
  simp
  omega

/-- The b64toBlob helper: the blob is the concatenation of the byte
arrays built from the 512-wide slices of the decoded characters. -/
def b64toBlob (byteCharacters : List ℕ) (sliceSize : ℕ) : List ℕ :=
  (blobSlices byteCharacters sliceSize).flatten

/-- The client packager createAndDownloadZip: each data url (given
here by its decoded payload bytes) becomes the entry
image_(index + 1).png whose content is the blob decoded from it. -/
def createAndDownloadZip (gridImages : List (List ℕ)) : List ZipEntry :=
  gridImages.enum.map (fun p =>
    { name := s!"image_{p.1 + 1}.png", content := b64toBlob p.2 512 })

/-- Zip assembly of the server route: cell (row, col) is stored as
image_(row * columns + col + 1).png with the extracted buffer as
content, in the row-major order in which the extraction promises are
created. -/
def serverZipEntries (rows columns : ℕ) (cellBuffer : ℕ → ℕ → List ℕ) : List ZipEntry :=
  (List.range rows).flatMap (fun row =>
    (List.range columns).map (fun col =>
      { name := s!"image_{row * columns + col + 1}.png", content := cellBuffer row col }))

/-- Responses of the /api/cut-image route: a structured JSON error
with a status code, or a zip attachment assembled from entries. -/
inductive ApiResponse where
  | errorJson (message : String) (status : ℕ)
  | zipResponse (entries : List ZipEntry)
deriving DecidableEq, Repr

/-- JavaScript truthiness of a parsed integer: parseInt yields NaN
(modelled as none) for a missing or unparsable field, and !n is true
exactly for NaN and 0. -/
def jsTruthyInt : Option ℤ → Bool
  | none => false
  | some n => n != 0

/-- JavaScript truthiness of an optional natural (sharp metadata
width/height): undefined and 0 are falsy. -/
def jsTruthyNat : Option ℕ → Bool
  | none => false
  | some n => n != 0

/-- The POST handler of /api/cut-image: reject requests whose image is
missing or whose parsed rows or columns are falsy, then reject images
without readable dimensions, then cut the image with the uniform
integer grid and zip the cells.  A negative row or column count makes
the extraction loops run zero times (Int.toNat is 0 on negatives, as
the JavaScript for loop guard fails immediately). -/
def cutImageRoute (hasImage : Bool) (rows columns : Option ℤ)
    (metaWidth metaHeight : Option ℕ) (extractBytes : ExtractRegion → List ℕ) :
    ApiResponse :=
  if !hasImage || !jsTruthyInt rows || !jsTruthyInt columns then
    ApiResponse.errorJson "Missing required parameters" 400
  else if !jsTruthyNat metaWidth || !jsTruthyNat metaHeight then
    ApiResponse.errorJson "Could not get image dimensions" 400
  else
    ApiResponse.zipResponse
      (serverZipEntries (rows.getD 0).toNat (columns.getD 0).toNat
        (fun row col =>
          extractBytes
            { left := col * ((metaWidth.getD 0) / (columns.getD 0).toNat),
              top := row * ((metaHeight.getD 0) / (rows.getD 0).toNat),
              width := (metaWidth.getD 0) / (columns.getD 0).toNat,
              height := (metaHeight.getD 0) / (rows.getD 0).toNat }))

/-- Entry m of List.range n is m itself. -/
theorem range_get? (n m : ℕ) (h : m < n) : (List.range n).get? m = some m := by
  rw [List.get?_eq_getElem?]
  simp [List.getElem?_range, h]

/-- Flattening the 512-wide slices reproduces the decoded bytes:
the chunking of b64toBlob loses and reorders nothing. -/
theorem blobSlices_flatten (n : ℕ) (chars : List ℕ) :
    (blobSlices chars (n + 1)).flatten = chars := by
  suffices h : ∀ (N : ℕ) (l : List ℕ), l.length ≤ N →
      (blobSlices l (n + 1)).flatten = l by
    exact h chars.length chars (le_refl _)
  intro N
  induction N with
  | zero =>
      intro l hl
      have hnil : l = [] := List.eq_nil_of_length_eq_zero (by omega)
      subst hnil
      simp [blobSlices]
  | succ N ih =>
      intro l hl
      cases l with
      | nil => simp [blobSlices]
      | cons c cs =>
          have hstep : blobSlices (c :: cs) (n + 1) =
              (c :: cs).take (n + 1) :: blobSlices ((c :: cs).drop (n + 1)) (n + 1) := by
            rw [blobSlices]
          rw [hstep, List.flatten_cons]
          have hlen : ((c :: cs).drop (n + 1)).length ≤ N := by
            simp only [List.length_cons] at hl
            simp only [List.length_drop, List.length_cons]
            omega
          rw [ih ((c :: cs).drop (n + 1)) hlen]
          exact List.take_append_drop _ _

/-- Counterexample to C2 as stated: on a 10 by 10 image with a 3 by 3
grid every server cell is exactly 3 by 3 (no cell absorbs the
remainder) and the pixel at (9, 9) is covered by no cell, so the union
of the extracted cells does not cover the source. -/
theorem server_fallback_drops_remainder :
    (∀ c ∈ serverCells 10 10 3 3, c.width = 3 ∧ c.height = 3) ∧
    (∀ c ∈ serverCells 10 10 3 3,
      ¬(c.left ≤ 9 ∧ 9 < c.left + c.width ∧ c.top ≤ 9 ∧ 9 < c.top + c.height)) := by
  decide

/-- Claim C2 (amended): in the uniform server fallback every cell has
width floor(W / C) and height floor(H / R); the cells are all the same
size (the last row and column absorb nothing), their union covers
exactly the pixels below C * floor(W / C) horizontally and
R * floor(H / R) vertically, and the remainder pixels beyond those
products are covered by no cell, so the whole source is covered only
when the dimensions divide evenly. -/
theorem serverCells_uniform (W H R C : ℕ) :
    (serverCells W H R C).length = R * C ∧
    (∀ c ∈ serverCells W H R C, c.width = W / C ∧ c.height = H / R) ∧
    (∀ (px py : ℕ), px < C * (W / C) → py < R * (H / R) →
      ∃ c ∈ serverCells W H R C,
        c.left ≤ px ∧ px < c.left + c.width ∧ c.top ≤ py ∧ py < c.top + c.height) ∧
    (∀ (px : ℕ) (c : ExtractRegion), C * (W / C) ≤ px → c ∈ serverCells W H R C →
      ¬(c.left ≤ px ∧ px < c.left + c.width)) ∧
    (∀ (py : ℕ) (c : ExtractRegion), R * (H / R) ≤ py → c ∈ serverCells W H R C →
      ¬(c.top ≤ py ∧ py < c.top + c.height)) := by
  refine ⟨?_, ?_, ?_, ?_, ?_⟩
  · unfold serverCells
    rw [flatMap_map_length]
    simp
  · intro c hc
    unfold serverCells at hc
    rcases List.mem_flatMap.mp hc with ⟨row, hrow, hc2⟩
    rcases List.mem_map.mp hc2 with ⟨col, hcol, rfl⟩
    exact ⟨rfl, rfl⟩
  · intro px py hpx hpy
    have hcw : 0 < W / C := by
      rcases Nat.eq_zero_or_pos (W / C) with h | h
      · rw [h] at hpx
        simp at hpx
      · exact h
    have hch : 0 < H / R := by
      rcases Nat.eq_zero_or_pos (H / R) with h | h
      · rw [h] at hpy
        simp at hpy
      · exact h
    have hcol : px / (W / C) < C := by
      rw [Nat.div_lt_iff_lt_mul hcw]
      exact hpx
    have hrow : py / (H / R) < R := by
      rw [Nat.div_lt_iff_lt_mul hch]
      exact hpy
    refine ⟨{ left := px / (W / C) * (W / C),
              top := py / (H / R) * (H / R),
              width := W / C,
              height := H / R }, ?_, ?_, ?_, ?_, ?_⟩
    · unfold serverCells
      refine List.mem_flatMap.mpr ⟨py / (H / R), List.mem_range.mpr hrow, ?_⟩
      exact List.mem_map.mpr ⟨px / (W / C), List.mem_range.mpr hcol, rfl⟩
    · show px / (W / C) * (W / C) ≤ px
      exact Nat.div_mul_le_self px (W / C)
    · show px < px / (W / C) * (W / C) + (W / C)
      have hdm := Nat.div_add_mod px (W / C)
      rw [Nat.mul_comm] at hdm
      have hmod := Nat.mod_lt px hcw
      omega
    · show py / (H / R) * (H / R) ≤ py
      exact Nat.div_mul_le_self py (H / R)
    · show py < py / (H / R) * (H / R) + (H / R)
      have hdm := Nat.div_add_mod py (H / R)
      rw [Nat.mul_comm] at hdm
      have hmod := Nat.mod_lt py hch
      omega
  · intro px c hle hc
    unfold serverCells at hc
    rcases List.mem_flatMap.mp hc with ⟨row, hrow, hc2⟩
    rcases List.mem_map.mp hc2 with ⟨col, hcol, rfl⟩
    rintro ⟨h1, h2⟩
    have h1x : col * (W / C) ≤ px := h1
    have h2x : px < col * (W / C) + (W / C) := h2
    have hcolC : col + 1 ≤ C := List.mem_range.mp hcol
    have hmul : (col + 1) * (W / C) ≤ C * (W / C) := Nat.mul_le_mul_right _ hcolC
    rw [Nat.succ_mul] at hmul
    omega
  · intro py c hle hc
    unfold serverCells at hc
    rcases List.mem_flatMap.mp hc with ⟨row, hrow, hc2⟩
    rcases List.mem_map.mp hc2 with ⟨col, hcol, rfl⟩
    rintro ⟨h1, h2⟩
    have h1x : row * (H / R) ≤ py := h1
    have h2x : py < row * (H / R) + (H / R) := h2
    have hrowR : row + 1 ≤ R := List.mem_range.mp hrow
    have hmul : (row + 1) * (H / R) ≤ R * (H / R) := Nat.mul_le_mul_right _ hrowR
    rw [Nat.succ_mul] at hmul
    omega

/-- Witness for the amended C2: on the 10 by 10 image cut 3 by 3 the
pixel (4, 7) is inside a cell (both coordinates are below the covered
extent 9). -/
theorem serverCells_uniform_witness :
    ∃ c ∈ serverCells 10 10 3 3,
      c.left ≤ 4 ∧ 4 < c.left + c.width ∧ c.top ≤ 7 ∧ 7 < c.top + c.height :=
  (serverCells_uniform 10 10 3 3).2.2.1 4 7 (by decide) (by decide)

/-- Counterexample to C1 as stated: on a 10 by 10 image with a 3 by 3
grid, the second cell of the client backend starts at source x = 10/3
with fractional width 10/3, while the second server cell starts at
x = 3 with width 3; the source rectangles differ, so the crops are
neither dimension-identical nor pixel-identical. -/
theorem client_server_cell_mismatch :
    ((cutImageIntoGrid 10 10 3 3).get? 1).map CellRect.x = some (10 / 3) ∧
    ((cutImageIntoGrid 10 10 3 3).get? 1).map CellRect.width = some (10 / 3) ∧
    ((serverCells 10 10 3 3).get? 1).map ExtractRegion.left = some 3 ∧
    ((serverCells 10 10 3 3).get? 1).map ExtractRegion.width = some 3 ∧
    (10 : ℚ) / 3 ≠ ((3 : ℕ) : ℚ) := by
  have h3 : List.range 3 = [0, 1, 2] := rfl
  refine ⟨?_, ?_, by decide, by decide, by norm_num⟩
  · simp [cutImageIntoGrid, h3]
  · simp [cutImageIntoGrid, h3]

/-- Claim C1 (amended): for every image and grid both uniform backends
emit the same number of cells, and flat slot k of each archive is the
cell of grid position (k / columns, k % columns) of its own backend,
so the row-major order always corresponds; when the columns divide the
width and the rows divide the height the cell rectangles agree exactly
(same offsets and extents, hence identical crops), while otherwise the
client uses exact fractional cell extents and the server floors them,
so the source rectangles differ. -/
theorem client_server_uniform_agree (W H R C : ℕ) :
    (cutImageIntoGrid (W : ℚ) (H : ℚ) R C).length = (serverCells W H R C).length ∧
    (∀ k cc sc, (cutImageIntoGrid (W : ℚ) (H : ℚ) R C).get? k = some cc →
      (serverCells W H R C).get? k = some sc →
      cc = { x := ((k % C : ℕ) : ℚ) * ((W : ℚ) / (C : ℚ)),
             y := ((k / C : ℕ) : ℚ) * ((H : ℚ) / (R : ℚ)),
             width := (W : ℚ) / (C : ℚ),
             height := (H : ℚ) / (R : ℚ) } ∧
        sc = { left := k % C * (W / C),
               top := k / C * (H / R),
               width := W / C,
               height := H / R }) ∧
    (0 < R → 0 < C → C ∣ W → R ∣ H →
      ∀ k cc sc, (cutImageIntoGrid (W : ℚ) (H : ℚ) R C).get? k = some cc →
        (serverCells W H R C).get? k = some sc →
        cc.x = (sc.left : ℚ) ∧ cc.y = (sc.top : ℚ) ∧
          cc.width = (sc.width : ℚ) ∧ cc.height = (sc.height : ℚ)) := by
  have hlenC : (cutImageIntoGrid (W : ℚ) (H : ℚ) R C).length = R * C := by
    unfold cutImageIntoGrid
    rw [flatMap_map_length]
    simp
  have hslot : ∀ k cc sc, (cutImageIntoGrid (W : ℚ) (H : ℚ) R C).get? k = some cc →
      (serverCells W H R C).get? k = some sc →
      cc = { x := ((k % C : ℕ) : ℚ) * ((W : ℚ) / (C : ℚ)),
             y := ((k / C : ℕ) : ℚ) * ((H : ℚ) / (R : ℚ)),
             width := (W : ℚ) / (C : ℚ),
             height := (H : ℚ) / (R : ℚ) } ∧
        sc = { left := k % C * (W / C),
               top := k / C * (H / R),
               width := W / C,
               height := H / R } := by
    intro k cc sc hcc hsc
    have hk := (List.get?_eq_some.mp hcc).1
    rw [hlenC] at hk
    have hC : 0 < C := by
      rcases Nat.eq_zero_or_pos C with h | h
      · subst h
        simp at hk
      · exact h
    have hCpos : 0 < (List.range C).length := by simpa using hC
    unfold cutImageIntoGrid at hcc
    obtain ⟨row, col, hr, hc2, rfl⟩ := flatMap_map_get?_decomp _ _ _ k cc hCpos hcc
    unfold serverCells at hsc
    obtain ⟨row2, col2, hr2, hc22, rfl⟩ := flatMap_map_get?_decomp _ _ _ k sc hCpos hsc
    rw [List.length_range] at hr hc2 hr2 hc22
    have hrowv : row = k / C := by
      rcases List.get?_eq_some.mp hr with ⟨hb, hval⟩
      simpa using hval.symm
    have hcolv : col = k % C := by
      rcases List.get?_eq_some.mp hc2 with ⟨hb, hval⟩
      simpa using hval.symm
    have hrow2v : row2 = k / C := by
      rcases List.get?_eq_some.mp hr2 with ⟨hb, hval⟩
      simpa using hval.symm
    have hcol2v : col2 = k % C := by
      rcases List.get?_eq_some.mp hc22 with ⟨hb, hval⟩
      simpa using hval.symm
    subst hrowv
    subst hcolv
    subst hrow2v
    subst hcol2v
    exact ⟨rfl, rfl⟩
  refine ⟨?_, hslot, ?_⟩
  · unfold cutImageIntoGrid serverCells
    rw [flatMap_map_length, flatMap_map_length]
  · intro hR hC hWC hHR k cc sc hcc hsc
    have hCq : ((C : ℚ)) ≠ 0 := by exact_mod_cast hC.ne'
    have hRq : ((R : ℚ)) ≠ 0 := by exact_mod_cast hR.ne'
    have hcastW : ((W / C : ℕ) : ℚ) = (W : ℚ) / (C : ℚ) := Nat.cast_div hWC hCq
    have hcastH : ((H / R : ℕ) : ℚ) = (H : ℚ) / (R : ℚ) := Nat.cast_div hHR hRq
    obtain ⟨hc1, hc2⟩ := hslot k cc sc hcc hsc
    subst hc1
    subst hc2
    refine ⟨?_, ?_, ?_, ?_⟩
    · show ((k % C : ℕ) : ℚ) * ((W : ℚ) / (C : ℚ)) = ((k % C * (W / C) : ℕ) : ℚ)
      rw [Nat.cast_mul, hcastW]
    · show ((k / C : ℕ) : ℚ) * ((H : ℚ) / (R : ℚ)) = ((k / C * (H / R) : ℕ) : ℚ)
      rw [Nat.cast_mul, hcastH]
    · show (W : ℚ) / (C : ℚ) = ((W / C : ℕ) : ℚ)
      rw [hcastW]
    · show (H : ℚ) / (R : ℚ) = ((H / R : ℕ) : ℚ)
      rw [hcastH]

/-- Witness for the amended C1: on the non-dividing 10 by 10 image cut
3 by 3 both backends emit the same number of cells, slot 1 of either
backend is the cell of grid position (0, 1) of that backend, and on
the evenly dividing 9 by 6 image the rectangle components of slot 1
coincide. -/
theorem client_server_uniform_agree_witness :
    ((cutImageIntoGrid ((10 : ℕ) : ℚ) ((10 : ℕ) : ℚ) 3 3).length =
      (serverCells 10 10 3 3).length) ∧
    (∀ cc sc, (cutImageIntoGrid ((10 : ℕ) : ℚ) ((10 : ℕ) : ℚ) 3 3).get? 1 = some cc →
      (serverCells 10 10 3 3).get? 1 = some sc →
      cc = { x := ((1 % 3 : ℕ) : ℚ) * (((10 : ℕ) : ℚ) / ((3 : ℕ) : ℚ)),
             y := ((1 / 3 : ℕ) : ℚ) * (((10 : ℕ) : ℚ) / ((3 : ℕ) : ℚ)),
             width := ((10 : ℕ) : ℚ) / ((3 : ℕ) : ℚ),
             height := ((10 : ℕ) : ℚ) / ((3 : ℕ) : ℚ) } ∧
        sc = { left := 1 % 3 * (10 / 3),
               top := 1 / 3 * (10 / 3),
               width := 10 / 3,
               height := 10 / 3 }) ∧
    (∀ cc sc, (cutImageIntoGrid ((9 : ℕ) : ℚ) ((6 : ℕ) : ℚ) 3 3).get? 1 = some cc →
      (serverCells 9 6 3 3).get? 1 = some sc →
      cc.x = (sc.left : ℚ) ∧ cc.y = (sc.top : ℚ) ∧
        cc.width = (sc.width : ℚ) ∧ cc.height = (sc.height : ℚ)) :=
  ⟨(client_server_uniform_agree 10 10 3 3).1,
    fun cc sc hcc hsc => (client_server_uniform_agree 10 10 3 3).2.1 1 cc sc hcc hsc,
    fun cc sc hcc hsc => (client_server_uniform_agree 9 6 3 3).2.2
      (by norm_num) (by norm_num) (by norm_num) (by norm_num) 1 cc sc hcc hsc⟩

/-- Claim C9: the client packager stores image k (0-indexed) as entry
image_(k + 1).png whose bytes are the decoded payload of that image,
and the server route stores cell (row, col) as
image_(row * columns + col + 1).png, so flat slot k is named
image_(k + 1).png with the bytes of cell (k / columns, k % columns);
both archives have exactly one entry per input in production order. -/
theorem zip_entries_spec (gridImages : List (List ℕ)) (rows columns : ℕ)
    (cellBuffer : ℕ → ℕ → List ℕ) :
    (createAndDownloadZip gridImages).length = gridImages.length ∧
    (∀ k data, gridImages.get? k = some data →
      (createAndDownloadZip gridImages).get? k =
        some { name := s!"image_{k + 1}.png", content := data }) ∧
    (serverZipEntries rows columns cellBuffer).length = rows * columns ∧
    (∀ k, k < rows * columns → 0 < columns →
      (serverZipEntries rows columns cellBuffer).get? k =
        some { name := s!"image_{k + 1}.png",
               content := cellBuffer (k / columns) (k % columns) }) := by
  refine ⟨?_, ?_, ?_, ?_⟩
  · simp [createAndDownloadZip]
  · intro k data hk
    have hb : b64toBlob data 512 = data := by
      unfold b64toBlob
      exact blobSlices_flatten 511 data
    have hstep : (createAndDownloadZip gridImages).get? k =
        some { name := s!"image_{k + 1}.png", content := b64toBlob data 512 } := by
      unfold createAndDownloadZip
      rw [List.get?_eq_getElem?, List.getElem?_map, List.getElem?_enum]
      rw [← List.get?_eq_getElem?, hk]
      rfl
    rw [hstep, hb]
  · unfold serverZipEntries
    rw [flatMap_map_length]
    simp
  · intro k hk hc
    have hrow : k / columns < rows := by
      rw [Nat.div_lt_iff_lt_mul hc]
      exact hk
    have hcol : k % columns < columns := Nat.mod_lt _ hc
    have hmain := flatMap_map_get?_some (List.range rows) (List.range columns)
      (fun row col => ({ name := s!"image_{row * columns + col + 1}.png",
                         content := cellBuffer row col } : ZipEntry))
      (k / columns) (k % columns) (k / columns) (k % columns)
      (range_get? _ _ hrow) (range_get? _ _ hcol)
    rw [List.length_range] at hmain
    have hsplit : k / columns * columns + k % columns = k := by
      have hdm := Nat.div_add_mod k columns
      rw [Nat.mul_comm] at hdm
      omega
    have hmain2 : (serverZipEntries rows columns cellBuffer).get?
        (k / columns * columns + k % columns) =
        some { name := s!"image_{k / columns * columns + k % columns + 1}.png",
               content := cellBuffer (k / columns) (k % columns) } := hmain
    rw [hsplit] at hmain2
    exact hmain2

/-- Witness for C9: two decoded images produce entries image_1.png and
image_2.png with the original bytes, and the 2 by 2 server archive
stores cell (1, 1) as its fourth entry image_4.png. -/
theorem zip_entries_spec_witness :
    (createAndDownloadZip [[1, 2], [3]]).length = 2 ∧
    (createAndDownloadZip [[1, 2], [3]]).get? 1 =
      some { name := s!"image_{1 + 1}.png", content := [3] } ∧
    (serverZipEntries 2 2 (fun r c => [r, c])).get? 3 =
      some { name := s!"image_{3 + 1}.png", content := [1, 1] } := by
  have h := zip_entries_spec [[1, 2], [3]] 2 2 (fun r c => [r, c])
  exact ⟨h.1, h.2.1 1 [3] rfl, h.2.2.2 3 (by norm_num) (by norm_num)⟩

/-- Counterexample to C10 as stated: a request with rows = -2 (a
negative, hence non-positive count) passes the truthiness validation,
is not answered with a structured error, and instead receives a
success response whose archive is empty (the extraction loop runs zero
times). -/
theorem negative_rows_not_rejected :
    cutImageRoute true (some (-2)) (some 3) (some 10) (some 10) (fun _ => []) =
      ApiResponse.zipResponse [] := by
  rfl

/-- Claim C10 (amended): a request with a missing image, or whose rows
or columns field is missing, unparsable (NaN) or zero, is rejected
immediately with the structured 400 error and no archive body and no
extraction; negative counts, however, pass the truthiness check. -/
theorem route_validation_spec (hasImage : Bool) (rows columns : Option ℤ)
    (metaWidth metaHeight : Option ℕ) (extractBytes : ExtractRegion → List ℕ)
    (h : hasImage = false ∨ rows = none ∨ rows = some 0 ∨
      columns = none ∨ columns = some 0) :
    cutImageRoute hasImage rows columns metaWidth metaHeight extractBytes =
      ApiResponse.errorJson "Missing required parameters" 400 := by
  unfold cutImageRoute
  rcases h with h | h | h | h | h <;> subst h <;> simp [jsTruthyInt]

/-- Witness for the amended C10: a request without an image is
rejected with the 400 error. -/
theorem route_validation_spec_witness :
    cutImageRoute false (some 3) (some 3) (some 10) (some 10) (fun _ => []) =
      ApiResponse.errorJson "Missing required parameters" 400 :=
  route_validation_spec false (some 3) (some 3) (some 10) (some 10) (fun _ => [])
    (Or.inl rfl)
